import Mathlib

/-!
# GoSLIDE driver (`goslide.go`): training loop, record parsing, rehash/rebuild schedule

A shallow embedding of the driver program `src/goslide.go`:

* `parseLine`, the tokenizer of one `label1,label2 idx1:val1 idx2:val2 ...` record;
* the batch reader of `readDataSvm` / `evalDataSvm` (slices allocated with
  `make(..., config.BatchSize)`, filled record by record);
* the rehash / rebuild trigger computation of `readDataSvm`;
* the sequence of `ProcessInput` calls issued by `readDataSvm` and by `main`.

Conventions.

* A Go `int` is a mathematical integer in the 64-bit two's complement range; every
  arithmetic result is reduced by `wrapInt`.  `/` and `%` truncate toward zero and
  panic on a zero divisor.
* A Go `string` is the list of its characters.  All separators used by the program
  (`' '`, `','`, `':'`) are single ASCII bytes, so splitting characters and splitting
  bytes agree.
* `log.Fatal` and run-time panics both end the process; they are the two values of `Abort`.
* `strconv.ParseFloat` is floating point and is kept abstract (`FloatModel`).
* The calls into package `network` (`New`, `ProcessInput`, `PredictClass`) are external:
  they are assumed to return, and `ProcessInput` calls are recorded in a trace.
-/

namespace GoSlide

/-! ## Go integers -/

/-- Reduction of a mathematical integer to the 64-bit two's complement range of Go's `int`. -/
def wrapInt (x : Int) : Int := (x + 2 ^ 63) % 2 ^ 64 - 2 ^ 63

/-- The values of Go's 64-bit `int`. -/
def isInt (x : Int) : Prop := -(2 ^ 63) ≤ x ∧ x < 2 ^ 63

instance (x : Int) : Decidable (isInt x) := by unfold isInt; infer_instance

/-- The two ways the process ends early: `log.Fatal` and a run-time panic. -/
inductive Abort where
  | fatal
  | panic
  deriving DecidableEq, Repr

/-- Go `a / b` on `int`: truncated quotient, run-time panic when `b == 0`. -/
def intDiv (a b : Int) : Except Abort Int :=
  if b = 0 then .error .panic else .ok (wrapInt (Int.tdiv a b))

/-- Go `a % b` on `int`: truncated remainder, run-time panic when `b == 0`. -/
def intMod (a b : Int) : Except Abort Int :=
  if b = 0 then .error .panic else .ok (Int.tmod a b)

/-! ## Strings -/

/-- A Go string, as the list of its characters. -/
abbrev GoString := List Char

/-- Go `strings.Split(s, sep)` for a one-character separator: the pieces of `s` between
consecutive occurrences of `sep`; always at least one piece. -/
def Split (s : GoString) (sep : Char) : List GoString :=
  match s with
  | [] => [[]]
  | c :: cs =>
    if c = sep then [] :: Split cs sep
    else
      match Split cs sep with
      | [] => [[c]]
      | t :: ts => (c :: t) :: ts

/-- Decimal digits to their value (left to right, starting from `acc`); `none` when a
character is not a digit. -/
def parseDigits : GoString → Nat → Option Nat
  | [], acc => some acc
  | c :: cs, acc =>
    if '0' ≤ c ∧ c ≤ '9' then parseDigits cs (acc * 10 + (c.toNat - 48)) else none

/-- Go `strconv.Atoi` (standard library): an optional sign followed by at least one
decimal digit, with a value in the range of `int`; `none` stands for a non-nil error. -/
def Atoi (s : GoString) : Option Int :=
  match s with
  | [] => none
  | c :: ds =>
    if c = '-' then
      if ds = [] then none
      else (parseDigits ds 0).bind fun n => if n ≤ 2 ^ 63 then some (-(n : Int)) else none
    else if c = '+' then
      if ds = [] then none
      else (parseDigits ds 0).bind fun n => if n < 2 ^ 63 then some (n : Int) else none
    else (parseDigits (c :: ds) 0).bind fun n => if n < 2 ^ 63 then some (n : Int) else none

/-- What the program uses of `float64`: the zero value that `make([]float64, n)` fills
with, and `strconv.ParseFloat(s, 64)` (`none` stands for a non-nil error). -/
structure FloatModel (F : Type) where
  zero : F
  ParseFloat : GoString → Option F

/-- An exact decimal `mant / 10 ^ scale`. -/
structure Dec where
  mant : Nat
  scale : Nat
  deriving DecidableEq, Repr

/-- A concrete `FloatModel` for evaluating examples: it accepts the plain literals
`digits` and `digits.digits`, on which `strconv.ParseFloat` returns no error, and keeps
their exact decimal value. -/
def decimalModel : FloatModel Dec where
  zero := ⟨0, 0⟩
  ParseFloat := fun s =>
    match Split s '.' with
    | [a] => if a = [] then none else (parseDigits a 0).map fun n => ⟨n, 0⟩
    | [a, b] =>
      if a = [] ∨ b = [] then none
      else (parseDigits a 0).bind fun x =>
        (parseDigits b 0).map fun y => ⟨x * 10 ^ b.length + y, b.length⟩
    | _ => none

/-! ## `parseLine` -/

/-- The loop `for _, s := range spl[1:len(spl)]` of `parseLine`: each token is split at
`':'`, piece 0 is appended to `list` and piece 1 to `value`; `spl2[1]` panics when the
token has no `':'`. -/
def parseTokens : List GoString → List GoString → List GoString →
    Except Abort (List GoString × List GoString)
  | [], list, value => .ok (list, value)
  | s :: rest, list, value =>
    match Split s ':' with
    | a :: b :: _ => parseTokens rest (list ++ [a]) (value ++ [b])
    | _ => .error .panic

/-- Source `parseLine`: returns `(label, list, value)`. -/
def parseLine (line : GoString) :
    Except Abort (List GoString × List GoString × List GoString) :=
  match Split line ' ' with
  | [] => .error .panic
  | first :: rest =>
    match parseTokens rest [] [] with
    | .error e => .error e
    | .ok (list, value) =>
      .ok ((Split first ',').foldl (fun label s => label ++ [s]) [], list, value)

/-! ## Configuration and external types -/

/-- Modelled from the spec: the layer-mode enumeration of package `configuration`, which
is not under `src/`.  The driver names two of its values, `LayerMode1` and `LayerMode4`
(the modes with hashed layers); every other value is an `other`. -/
inductive LayerMode where
  | LayerMode1
  | LayerMode4
  | other (tag : Nat)
  deriving DecidableEq, Repr

/-- Modelled from the spec: the fields of `configuration.Global` (package `configuration`,
not under `src/`) that the driver's control flow reads.  All numeric fields are Go `int`s. -/
structure Config where
  TotRecords : Int
  TotRecordsTest : Int
  BatchSize : Int
  NumLayer : Int
  Epoch : Int
  Stepsize : Int
  Rehash : Int
  Rebuild : Int
  LayerMode : LayerMode
  deriving DecidableEq, Repr

/-- Modelled from the spec: the activation kinds `node.ReLU` and `node.Softmax` of package
`node`, which is not under `src/`. -/
inductive NodeType where
  | ReLU
  | Softmax
  deriving DecidableEq, Repr

/-- A file as seen through `bufio.Scanner`: the lines it yields, and whether reading ends
with an error other than end-of-file. -/
structure File where
  lines : List GoString
  failing : Bool
  deriving DecidableEq, Repr

/-! ## Slices -/

/-- Go `make([]T, n)`: `n` zero values; run-time panic when `n` is negative. -/
def makeSlice {α : Type} (n : Int) (zero : α) : Except Abort (List α) :=
  if n < 0 then .error .panic else .ok (List.replicate n.toNat zero)

/-- Go `xs[i] = x`: run-time panic when `i` is out of range. -/
def store {α : Type} (xs : List α) (i : Nat) (x : α) : Except Abort (List α) :=
  if i < xs.length then .ok (xs.set i x) else .error .panic

/-- The conversion loops of the batch reader,
`for k, s := range src { dst[k], err = conv(s); if err != nil { log.Fatal(err) } }`,
started at index `k`. -/
def fill {α : Type} (conv : GoString → Option α) :
    List GoString → Nat → List α → Except Abort (List α)
  | [], _, dst => .ok dst
  | s :: rest, k, dst =>
    if k < dst.length then
      match conv s with
      | some v => fill conv rest (k + 1) (dst.set k v)
      | none => .error .fatal
    else .error .panic

/-! ## The batch reader shared by `readDataSvm` and `evalDataSvm` -/

/-- The five slices of a batch. -/
structure Batch (F : Type) where
  records : List (List Int)
  values : List (List F)
  sizes : List Int
  labels : List (List Int)
  labelSize : List Int
  deriving DecidableEq, Repr

/-- The allocations at the head of a batch: five `make(..., config.BatchSize)`. -/
def newBatch {F : Type} (BatchSize : Int) : Except Abort (Batch F) :=
  match makeSlice BatchSize ([] : List Int), makeSlice BatchSize ([] : List F),
      makeSlice BatchSize (0 : Int), makeSlice BatchSize ([] : List Int),
      makeSlice BatchSize (0 : Int) with
  | .ok records, .ok values, .ok sizes, .ok labels, .ok labelSize =>
    .ok ⟨records, values, sizes, labels, labelSize⟩
  | _, _, _, _, _ => .error .panic

/-- The body of `for scanner.Scan() { ... }` up to `count++`: parse the line, allocate row
`count` of every slice, then convert indices, values and labels in this order.  Each row
is converted on its own and written back at `count`, which is what the in-place writes
`records[count][k] = ...` amount to.  (The accumulator `nonZeros` is never read and is
left out.) -/
def readRecord {F : Type} (fm : FloatModel F) (line : GoString) (b : Batch F) (count : Nat) :
    Except Abort (Batch F) := do
  let (label, list, value) ← parseLine line
  let records ← store b.records count (List.replicate list.length (0 : Int))
  let values ← store b.values count (List.replicate list.length fm.zero)
  let labels ← store b.labels count (List.replicate label.length (0 : Int))
  let sizes ← store b.sizes count (list.length : Int)
  let labelSize ← store b.labelSize count (label.length : Int)
  let recordRow ← fill Atoi list 0 (List.replicate list.length (0 : Int))
  let valueRow ← fill fm.ParseFloat value 0 (List.replicate list.length fm.zero)
  let labelRow ← fill Atoi label 0 (List.replicate label.length (0 : Int))
  pure ⟨records.set count recordRow, values.set count valueRow, sizes,
    labels.set count labelRow, labelSize⟩

/-- The loop `for scanner.Scan() { ...; count++; if count >= config.BatchSize { break } }`
over the lines the scanner still holds.  Returns the batch, the lines left, and whether
the loop ended because `Scan` returned false. -/
def scanBatch {F : Type} (fm : FloatModel F) (BatchSize : Int) :
    List GoString → Batch F → Nat → Except Abort (Batch F × List GoString × Bool)
  | [], b, _ => .ok (b, [], true)
  | line :: rest, b, count =>
    match readRecord fm line b count with
    | .error e => .error e
    | .ok b1 =>
      if ((count + 1 : Nat) : Int) ≥ BatchSize then .ok (b1, rest, false)
      else scanBatch fm BatchSize rest b1 (count + 1)

/-- State of a scanner between batches: the lines it still holds and whether `Scan` has
already returned false. -/
structure Scanner where
  pending : List GoString
  stopped : Bool
  deriving DecidableEq, Repr

/-- The call `scanner.Scan()` for the header line and the `scanner.Err()` check: the scanner
positioned after the header; `log.Fatal` when the file yields no line because of a read
error. -/
def skipHeader (f : File) : Except Abort Scanner :=
  match f.lines with
  | [] => if f.failing then .error .fatal else .ok ⟨[], true⟩
  | _ :: rest => .ok ⟨rest, false⟩

/-! ## `evalDataSvm` -/

/-- The loop `for i := 0; i < numBatchesTest; i++` of `evalDataSvm`, with `n` iterations
left: allocate, read a batch, call `PredictClass` (external, only its count is printed). -/
def evalLoop {F : Type} (fm : FloatModel F) (BatchSize : Int) :
    Nat → List GoString → Except Abort Unit
  | 0, _ => .ok ()
  | n + 1, lines =>
    match newBatch BatchSize with
    | .error e => .error e
    | .ok (b : Batch F) =>
      match scanBatch fm BatchSize lines b 0 with
      | .error e => .error e
      | .ok (_, rest, _) => evalLoop fm BatchSize n rest

/-- Source `evalDataSvm`: `os.Open` of the test file (`none`: the open fails), header,
then `numBatchesTest` batches. -/
def evalDataSvm {F : Type} (fm : FloatModel F) (cfg : Config) (test : Option File)
    (numBatchesTest : Int) : Except Abort Unit :=
  match test with
  | none => .error .fatal
  | some f =>
    match skipHeader f with
    | .error e => .error e
    | .ok sc => evalLoop fm cfg.BatchSize numBatchesTest.toNat sc.pending

/-! ## Rehash / rebuild triggers -/

/-- The global batch counter `epoch*numBatches+i`. -/
def counter (epoch numBatches i : Int) : Int :=
  wrapInt (wrapInt (epoch * numBatches) + i)

/-- One trigger test of `readDataSvm`:
`c % (interval/config.BatchSize) == (interval/config.BatchSize - 1)`. -/
def due (c interval BatchSize : Int) : Except Abort Bool := do
  let q ← intDiv interval BatchSize
  let r ← intMod c q
  let q1 ← intDiv interval BatchSize
  pure (decide (r = wrapInt (q1 - 1)))

/-- Lines 156-167 of `readDataSvm`: the pair `(rehash, rebuild)`. -/
def triggers (cfg : Config) (epoch numBatches i : Int) : Except Abort (Bool × Bool) :=
  if cfg.LayerMode = LayerMode.LayerMode1 ∨ cfg.LayerMode = LayerMode.LayerMode4 then do
    let rehash ← due (counter epoch numBatches i) cfg.Rehash cfg.BatchSize
    let rebuild ← due (counter epoch numBatches i) cfg.Rebuild cfg.BatchSize
    pure (rehash, rebuild)
  else .ok (false, false)

/-! ## `readDataSvm` -/

/-- The arguments of one `myNet.ProcessInput` call. -/
structure Call (F : Type) where
  batch : Batch F
  iter : Int
  rehash : Bool
  rebuild : Bool
  deriving DecidableEq, Repr

/-- One iteration of `for i := 0; i < numBatches; i++` in `readDataSvm`: the periodic
evaluation, the batch, the `scanner.Err()` check, the triggers, and the `ProcessInput`
call that results. -/
def trainBatch {F : Type} (fm : FloatModel F) (cfg : Config) (train : File)
    (test : Option File) (numBatches epoch i : Int) (sc : Scanner) :
    Except Abort (Call F × Scanner) := do
  let r ← intMod (wrapInt (i + wrapInt (epoch * numBatches))) cfg.Stepsize
  if r = 0 then evalDataSvm fm cfg test 20
  let b ← newBatch cfg.BatchSize
  let (b1, rest, ended) ← scanBatch fm cfg.BatchSize sc.pending b 0
  let sc1 : Scanner := ⟨rest, sc.stopped || ended⟩
  if sc1.stopped && train.failing then throw Abort.fatal
  let (rehash, rebuild) ← triggers cfg epoch numBatches i
  pure (⟨b1, counter epoch numBatches i, rehash, rebuild⟩, sc1)

/-- The result of running a piece of the driver: the `ProcessInput` calls issued, in
order, and how the piece ended (`none`: it returned). -/
structure Run (F : Type) where
  calls : List (Call F)
  abort : Option Abort
  deriving DecidableEq, Repr

/-- The batch loop of `readDataSvm` with `n` iterations left, at batch index `i`. -/
def trainLoop {F : Type} (fm : FloatModel F) (cfg : Config) (train : File)
    (test : Option File) (numBatches epoch : Int) : Nat → Int → Scanner → Run F
  | 0, _, _ => ⟨[], none⟩
  | n + 1, i, sc =>
    match trainBatch fm cfg train test numBatches epoch i sc with
    | .error e => ⟨[], some e⟩
    | .ok (c, sc1) =>
      let r := trainLoop fm cfg train test numBatches epoch n (i + 1) sc1
      ⟨c :: r.calls, r.abort⟩

/-- Source `readDataSvm`: `os.Open` of the training file (`none`: the open fails), header,
then `numBatches` batches. -/
def readDataSvm {F : Type} (fm : FloatModel F) (cfg : Config) (train test : Option File)
    (numBatches epoch : Int) : Run F :=
  match train with
  | none => ⟨[], some .fatal⟩
  | some f =>
    match skipHeader f with
    | .error e => ⟨[], some e⟩
    | .ok sc => trainLoop fm cfg f test numBatches epoch numBatches.toNat 0 sc

/-! ## `main` -/

/-- The loop `for i := 0; i < config.NumLayer-1; i++ { layersTypes[i] = node.ReLU }`, with
`n` iterations left at index `i`. -/
def setReLU : Nat → Nat → List NodeType → Except Abort (List NodeType)
  | 0, _, ts => .ok ts
  | n + 1, i, ts =>
    match store ts i NodeType.ReLU with
    | .error e => .error e
    | .ok ts1 => setReLU n (i + 1) ts1

/-- Lines 38-42 of `main`: the `layersTypes` slice handed to `network.New`.  `zero` is the
zero value of `node.NodeType`, with which `make` fills the slice. -/
def layersTypes (zero : NodeType) (NumLayer : Int) : Except Abort (List NodeType) := do
  let ts ← makeSlice NumLayer zero
  let ts1 ← setReLU (wrapInt (NumLayer - 1)).toNat 0 ts
  if wrapInt (NumLayer - 1) < 0 then throw Abort.panic
  store ts1 (wrapInt (NumLayer - 1)).toNat NodeType.Softmax

/-- The loop `for e := 0; e < config.Epoch; e++` of `main`, with `n` iterations left at
epoch `e`: training, then evaluation (all test batches after the last epoch, 50 otherwise). -/
def epochLoop {F : Type} (fm : FloatModel F) (cfg : Config) (train test : Option File)
    (numBatches numBatchesTest : Int) : Nat → Int → Run F
  | 0, _ => ⟨[], none⟩
  | n + 1, e =>
    let r := readDataSvm fm cfg train test numBatches e
    match r.abort with
    | some a => ⟨r.calls, some a⟩
    | none =>
      match evalDataSvm fm cfg test
          (if e = wrapInt (cfg.Epoch - 1) then numBatchesTest else 50) with
      | .error a => ⟨r.calls, some a⟩
      | .ok _ =>
        let r1 := epochLoop fm cfg train test numBatches numBatchesTest n (e + 1)
        ⟨r.calls ++ r1.calls, r1.abort⟩

/-- Source `main`, after the configuration has been loaded: the batch counts, the layer
types, `network.New` (external), and the epoch loop. -/
def main {F : Type} (fm : FloatModel F) (zero : NodeType) (cfg : Config)
    (train test : Option File) : Run F :=
  match intDiv cfg.TotRecords cfg.BatchSize, intDiv cfg.TotRecordsTest cfg.BatchSize,
      layersTypes zero cfg.NumLayer with
  | .ok numBatches, .ok numBatchesTest, .ok _ =>
    epochLoop fm cfg train test numBatches numBatchesTest cfg.Epoch.toNat 0
  | _, _, _ => ⟨[], some .panic⟩


/-! ## Vocabulary for stating what a batch holds -/

/-- The text of `s` before its first `sep` (all of `s` when it has none). -/
def before (sep : Char) (s : GoString) : GoString := s.takeWhile fun c => !(c == sep)

/-- The text of `s` after its first `sep` (empty when it has none). -/
def after (sep : Char) (s : GoString) : GoString := (s.dropWhile fun c => !(c == sep)).drop 1

/-- The text of a feature token before its first `':'`. -/
def indexText (tok : GoString) : GoString := before ':' tok

/-- The text of a feature token between its first `':'` and the next `':'`, or the end of
the token. -/
def valueText (tok : GoString) : GoString := before ':' (after ':' tok)

/-- Conversion of every string of a list; `none` when one conversion fails. -/
def convertAll {α : Type} (conv : GoString → Option α) : List GoString → Option (List α)
  | [] => some []
  | s :: rest =>
    match conv s, convertAll conv rest with
    | some v, some vs => some (v :: vs)
    | _, _ => none

/-- One example of a batch: entry `j` of each of the five slices. -/
structure Row (F : Type) where
  record : List Int
  value : List F
  size : Int
  label : List Int
  labelSize : Int
  deriving DecidableEq, Repr

/-- The example at index `j` of a batch; `none` when `j` is out of range in a slice. -/
def Batch.row? {F : Type} (b : Batch F) (j : Nat) : Option (Row F) :=
  match b.records[j]?, b.values[j]?, b.sizes[j]?, b.labels[j]?, b.labelSize[j]? with
  | some r, some v, some s, some l, some n => some ⟨r, v, s, l, n⟩
  | _, _, _, _, _ => none

/-- All five slices of the batch have length `n`. -/
def Batch.Sized {F : Type} (b : Batch F) (n : Nat) : Prop :=
  b.records.length = n ∧ b.values.length = n ∧ b.sizes.length = n ∧
    b.labels.length = n ∧ b.labelSize.length = n

/-- The example left by `make` in an entry that is never written: nil slices, sizes 0. -/
def Row.empty {F : Type} : Row F := ⟨[], [], 0, [], 0⟩

/-- What one line contributes to a batch: `parseLine`, then the conversions of the index
texts, the value texts and the label texts. -/
def parseRecord {F : Type} (fm : FloatModel F) (line : GoString) : Except Abort (Row F) :=
  match parseLine line with
  | .error e => .error e
  | .ok (label, list, value) =>
    match convertAll Atoi list, convertAll fm.ParseFloat value, convertAll Atoi label with
    | some idx, some vals, some labs =>
      .ok ⟨idx, vals, (list.length : Int), labs, (label.length : Int)⟩
    | _, _, _ => .error .fatal

/-- A record line with a feature token that has no `':'`, or whose index text is not
accepted by `Atoi`, or whose value text is not accepted by `ParseFloat`, or with a label
that is not accepted by `Atoi`. -/
def Rejected {F : Type} (fm : FloatModel F) (line : GoString) : Prop :=
  (∃ tok ∈ (Split line ' ').tail,
    ':' ∉ tok ∨ Atoi (indexText tok) = none ∨ fm.ParseFloat (valueText tok) = none) ∨
  (∃ l ∈ Split ((Split line ' ').headD []) ',', Atoi l = none)

/-! ## Concrete inputs used in the examples -/

/-- A training file: a header and three records. -/
def fileThree : File :=
  ⟨["header".toList, "0 0:1.0 2:1.0".toList, "1 1:1.0 3:1.0".toList, "0,1 5:2".toList], false⟩

/-- Batch size 2, rehash interval 4, rebuild interval 6, hashed layers (`LayerMode1`). -/
def cfgHashed : Config :=
  { TotRecords := 4, TotRecordsTest := 2, BatchSize := 2, NumLayer := 2, Epoch := 2,
    Stepsize := 100, Rehash := 4, Rebuild := 6, LayerMode := LayerMode.LayerMode1 }

/-- Batch size 2 and intervals 1, smaller than the batch size, in a layer mode without
hashed layers. -/
def cfgPlain : Config :=
  { TotRecords := 4, TotRecordsTest := 2, BatchSize := 2, NumLayer := 2, Epoch := 2,
    Stepsize := 100, Rehash := 1, Rebuild := 1, LayerMode := LayerMode.other 2 }

/-- Batch size 5, rehash interval 10, rebuild interval 15, hashed layers. -/
def cfgCoupling : Config :=
  { TotRecords := 20, TotRecordsTest := 5, BatchSize := 5, NumLayer := 2, Epoch := 1,
    Stepsize := 100, Rehash := 10, Rebuild := 15, LayerMode := LayerMode.LayerMode1 }

/-- Batch size 2, rehash interval -4, rebuild interval 2, hashed layers (`LayerMode4`). -/
def cfgNegative : Config :=
  { TotRecords := 4, TotRecordsTest := 2, BatchSize := 2, NumLayer := 2, Epoch := 1,
    Stepsize := 100, Rehash := -4, Rebuild := 2, LayerMode := LayerMode.LayerMode4 }

/-- Batch size 2, rehash interval 1 below the batch size, hashed layers. -/
def cfgShort : Config :=
  { TotRecords := 4, TotRecordsTest := 2, BatchSize := 2, NumLayer := 2, Epoch := 1,
    Stepsize := 100, Rehash := 1, Rebuild := 2, LayerMode := LayerMode.LayerMode1 }

/-- Batch size 5, rehash interval 10, rebuild interval 5, hashed layers, two epochs of two
batches. -/
def cfgTen : Config :=
  { TotRecords := 10, TotRecordsTest := 5, BatchSize := 5, NumLayer := 3, Epoch := 2,
    Stepsize := 100, Rehash := 10, Rebuild := 5, LayerMode := LayerMode.LayerMode1 }

/-- A file with a header and ten records. -/
def fileTen : File :=
  ⟨"header".toList :: List.replicate 10 "1 0:1.0 2:0.5".toList, false⟩

/-- Batch size 1, one batch, one epoch, no hashed layers. -/
def cfgOne : Config :=
  { TotRecords := 1, TotRecordsTest := 1, BatchSize := 1, NumLayer := 2, Epoch := 1,
    Stepsize := 100, Rehash := 1, Rebuild := 1, LayerMode := LayerMode.other 2 }

/-- A file whose only record has a feature token with two `':'`. -/
def fileExtraColon : File := ⟨["header".toList, "0 1:2:3".toList], false⟩

/-- A file whose second record has a feature value that is not numeric. -/
def fileBadValue : File :=
  ⟨["header".toList, "0 0:1.0".toList, "1 3:abc".toList, "0 2:1".toList], false⟩

/-! # Theorems -/

/-! ## Integer lemmas -/

theorem wrapInt_of_isInt {x : Int} (h : isInt x) : wrapInt x = x := by
  unfold isInt at h
  unfold wrapInt
  omega

theorem wrapInt_isInt (x : Int) : isInt (wrapInt x) := by
  unfold isInt wrapInt
  omega

theorem wrapInt_wrapInt_add (a b : Int) : wrapInt (wrapInt a + b) = wrapInt (a + b) := by
  unfold wrapInt
  omega

theorem counter_eq_of_isInt {e nb i : Int} (h : isInt (e * nb + i)) :
    counter e nb i = e * nb + i := by
  unfold counter
  rw [wrapInt_wrapInt_add, wrapInt_of_isInt h]


/-! ## The `ProcessInput` calls of the training loop -/

theorem trainBatch_ok {F : Type} (fm : FloatModel F) (cfg : Config) (train : File)
    (test : Option File) (nb e i : Int) (sc sc1 : Scanner) (c : Call F)
    (h : trainBatch fm cfg train test nb e i sc = .ok (c, sc1)) :
    ∃ b r, newBatch cfg.BatchSize = .ok b ∧
      scanBatch fm cfg.BatchSize sc.pending b 0 = .ok r ∧
      sc1 = ⟨r.2.1, sc.stopped || r.2.2⟩ ∧ c.batch = r.1 ∧
      c.iter = counter e nb i ∧ triggers cfg e nb i = .ok (c.rehash, c.rebuild) := by
  unfold trainBatch at h
  simp only [bind, Except.bind, pure, Except.pure] at h
  repeat' split at h
  all_goals try cases h
  all_goals exact ⟨_, _, ‹newBatch cfg.BatchSize = _›, ‹scanBatch _ _ _ _ _ = _›, rfl, rfl, rfl,
    ‹triggers cfg e nb i = _›⟩

theorem trainLoop_inv {F : Type} (fm : FloatModel F) (cfg : Config) (train : File)
    (test : Option File) (nb e : Int) (P : Int → Scanner → Prop)
    (hstep : ∀ (i : Int) (sc sc1 : Scanner) (c : Call F), P i sc →
      trainBatch fm cfg train test nb e i sc = .ok (c, sc1) → P (i + 1) sc1) :
    ∀ (n : Nat) (i : Int) (sc : Scanner), P i sc → ∀ (j : Nat) (c : Call F),
      (trainLoop fm cfg train test nb e n i sc).calls[j]? = some c →
      ∃ sc0 sc1, P (i + j) sc0 ∧
        trainBatch fm cfg train test nb e (i + j) sc0 = .ok (c, sc1) := by
  intro n
  induction n with
  | zero => intro i sc _ j c h; simp [trainLoop] at h
  | succ n ih =>
    intro i sc hP j c h
    unfold trainLoop at h
    split at h
    · simp at h
    · rename_i c0 sc1 hb
      cases j with
      | zero =>
        simp at h
        subst h
        exact ⟨sc, sc1, by simpa using hP, by simpa using hb⟩
      | succ j =>
        simp only [List.getElem?_cons_succ] at h
        obtain ⟨s0, s1, hp, ht⟩ := ih (i + 1) sc1 (hstep i sc sc1 c0 hP hb) j c h
        refine ⟨s0, s1, ?_, ?_⟩
        · have : i + ((j + 1 : Nat) : Int) = i + 1 + (j : Int) := by push_cast; ring
          rw [this]; exact hp
        · have : i + ((j + 1 : Nat) : Int) = i + 1 + (j : Int) := by push_cast; ring
          rw [this]; exact ht

theorem trainLoop_length {F : Type} (fm : FloatModel F) (cfg : Config) (train : File)
    (test : Option File) (nb e : Int) :
    ∀ (n : Nat) (i : Int) (sc : Scanner),
      (trainLoop fm cfg train test nb e n i sc).calls.length ≤ n ∧
      ((trainLoop fm cfg train test nb e n i sc).abort = none →
        (trainLoop fm cfg train test nb e n i sc).calls.length = n) := by
  intro n
  induction n with
  | zero => intro i sc; simp [trainLoop]
  | succ n ih =>
    intro i sc
    unfold trainLoop
    split
    · simp
    · rename_i c0 sc1 hb
      obtain ⟨h1, h2⟩ := ih (i + 1) sc1
      refine ⟨by simpa using h1, fun h => ?_⟩
      simpa using h2 h


theorem readDataSvm_call {F : Type} (fm : FloatModel F) (cfg : Config)
    (train test : Option File) (nb e : Int) (j : Nat) (c : Call F)
    (h : (readDataSvm fm cfg train test nb e).calls[j]? = some c) :
    ∃ f sc0 sc1, train = some f ∧
      trainBatch fm cfg f test nb e j sc0 = .ok (c, sc1) := by
  unfold readDataSvm at h
  split at h
  · simp at h
  · rename_i f
    split at h
    · simp at h
    · rename_i sc hsc
      obtain ⟨s0, s1, _, ht⟩ := trainLoop_inv fm cfg f test nb e (fun _ _ => True)
        (fun _ _ _ _ _ _ => trivial) nb.toNat 0 sc trivial j c h
      exact ⟨f, s0, s1, rfl, by simpa using ht⟩

theorem readDataSvm_length {F : Type} (fm : FloatModel F) (cfg : Config)
    (train test : Option File) (nb e : Int) :
    (readDataSvm fm cfg train test nb e).calls.length ≤ nb.toNat ∧
    ((readDataSvm fm cfg train test nb e).abort = none →
      (readDataSvm fm cfg train test nb e).calls.length = nb.toNat) := by
  unfold readDataSvm
  split
  · simp
  · split
    · simp
    · exact trainLoop_length fm cfg _ test nb e nb.toNat 0 _

theorem readDataSvm_flags {F : Type} (fm : FloatModel F) (cfg : Config)
    (train test : Option File) (nb e : Int) (j : Nat) (c : Call F)
    (h : (readDataSvm fm cfg train test nb e).calls[j]? = some c) :
    c.iter = counter e nb j ∧ triggers cfg e nb j = .ok (c.rehash, c.rebuild) := by
  obtain ⟨f, s0, s1, _, ht⟩ := readDataSvm_call fm cfg train test nb e j c h
  obtain ⟨_, _, _, _, _, _, h1, h2⟩ := trainBatch_ok fm cfg f test nb e j s0 s1 c ht
  exact ⟨h1, h2⟩

/-! ## The trigger computation -/

theorem due_of_quotient {c interval B q : Int} {f : Bool}
    (hq : intDiv interval B = .ok q) (h : due c interval B = .ok f) :
    q ≠ 0 ∧ f = decide (Int.tmod c q = wrapInt (q - 1)) := by
  unfold due at h
  simp only [hq, bind, Except.bind, pure, Except.pure, intMod] at h
  split at h
  · cases h
  · rename_i v hv
    split at hv
    · cases hv
    · rename_i hne
      cases hv
      cases h
      exact ⟨hne, rfl⟩

theorem due_zero_quotient {c interval B : Int}
    (hq : intDiv interval B = .ok 0) : due c interval B = .error .panic := by
  unfold due
  simp [hq, bind, Except.bind, intMod]

theorem due_defined {c interval B q : Int}
    (hq : intDiv interval B = .ok q) (hne : q ≠ 0) :
    due c interval B = .ok (decide (Int.tmod c q = wrapInt (q - 1))) := by
  unfold due
  simp [hq, bind, Except.bind, intMod, hne, pure, Except.pure]

theorem triggers_hashed {cfg : Config} {e nb i : Int} {rh rb : Bool}
    (hmode : cfg.LayerMode = LayerMode.LayerMode1 ∨ cfg.LayerMode = LayerMode.LayerMode4)
    (h : triggers cfg e nb i = .ok (rh, rb)) :
    due (counter e nb i) cfg.Rehash cfg.BatchSize = .ok rh ∧
    due (counter e nb i) cfg.Rebuild cfg.BatchSize = .ok rb := by
  unfold triggers at h
  rw [if_pos hmode] at h
  simp only [bind, Except.bind, pure, Except.pure] at h
  split at h
  · cases h
  · rename_i v1 h1
    split at h
    · cases h
    · rename_i v2 h2
      cases h
      exact ⟨h1, h2⟩

theorem triggers_not_hashed {cfg : Config} {e nb i : Int}
    (hmode : ¬ (cfg.LayerMode = LayerMode.LayerMode1 ∨ cfg.LayerMode = LayerMode.LayerMode4)) :
    triggers cfg e nb i = .ok (false, false) := by
  unfold triggers
  rw [if_neg hmode]

theorem intDiv_isInt {a b q : Int} (h : intDiv a b = .ok q) : isInt q := by
  unfold intDiv at h
  split at h
  · cases h
  · cases h
    exact wrapInt_isInt _

/-- The truncated quotient by a positive divisor, through the floor quotient. -/
theorem tdiv_pos_divisor (a b : Int) (hb : 0 < b) :
    Int.tdiv a b = if 0 ≤ a then a / b else -((-a) / b) := by
  split
  · rename_i ha
    exact Int.tdiv_eq_ediv ha (le_of_lt hb)
  · rename_i ha
    have h1 : Int.tdiv a b = -Int.tdiv (-a) b := by rw [Int.neg_tdiv]; simp
    rw [h1, Int.tdiv_eq_ediv (by omega) (le_of_lt hb)]

theorem intDiv_pos_divisor {a b : Int} (ha : isInt a) (hb : 0 < b) :
    ∃ q, intDiv a b = .ok q ∧ (q = 0 ↔ |a| < b) := by
  unfold intDiv
  rw [if_neg (by omega)]
  refine ⟨_, rfl, ?_⟩
  unfold isInt at ha
  rw [tdiv_pos_divisor a b hb]
  split
  · rename_i h0
    have h1 : 0 ≤ a / b := Int.ediv_nonneg h0 (le_of_lt hb)
    have h2 : a / b ≤ a := Int.ediv_le_self b h0
    rw [wrapInt_of_isInt (by unfold isInt; omega), abs_of_nonneg h0]
    constructor
    · intro h
      have h3 := Int.emod_add_ediv a b
      have h4 := Int.emod_lt_of_pos a hb
      rw [h, mul_zero, add_zero] at h3
      omega
    · intro h
      exact Int.ediv_eq_zero_of_lt h0 h
  · rename_i h0
    have h1 : 0 ≤ (-a) / b := Int.ediv_nonneg (by omega) (le_of_lt hb)
    have h2 : (-a) / b ≤ -a := Int.ediv_le_self b (by omega)
    rw [wrapInt_of_isInt (by unfold isInt; omega), abs_of_neg (by omega)]
    constructor
    · intro h
      have h3 := Int.emod_add_ediv (-a) b
      have h4 := Int.emod_lt_of_pos (-a) hb
      have h5 : -a / b = 0 := by omega
      rw [h5, mul_zero, add_zero] at h3
      omega
    · intro h
      have := @Int.ediv_eq_zero_of_lt (-a) b (by omega) h
      omega

/-! ## Claims on the rehash / rebuild schedule -/

/-- C1: in a hashed layer mode with `Rehash/BatchSize = q >= 1`, the `i`-th `ProcessInput`
call of `readDataSvm` receives the iteration number `epoch*numBatches+i` (Go arithmetic;
the mathematical value whenever that fits an `int`) and a rehash flag that is true exactly
when that counter modulo `q` equals `q - 1`. -/
theorem readDataSvm_rehash_flag {F : Type} (fm : FloatModel F) (cfg : Config)
    (train test : Option File) (numBatches epoch : Int) (i : Nat) (c : Call F) (q : Int)
    (hmode : cfg.LayerMode = LayerMode.LayerMode1 ∨ cfg.LayerMode = LayerMode.LayerMode4)
    (hq : intDiv cfg.Rehash cfg.BatchSize = .ok q) (hq1 : 1 ≤ q)
    (hc : (readDataSvm fm cfg train test numBatches epoch).calls[i]? = some c) :
    c.iter = counter epoch numBatches i ∧
    (c.rehash = true ↔ Int.tmod (counter epoch numBatches i) q = q - 1) ∧
    (isInt (epoch * numBatches + i) → c.iter = epoch * numBatches + i) := by
  obtain ⟨hiter, htr⟩ := readDataSvm_flags fm cfg train test numBatches epoch i c hc
  obtain ⟨hrh, _⟩ := triggers_hashed hmode htr
  obtain ⟨_, hf⟩ := due_of_quotient hq hrh
  have hqi := intDiv_isInt hq
  have hw : wrapInt (q - 1) = q - 1 := wrapInt_of_isInt (by unfold isInt at *; omega)
  refine ⟨hiter, ?_, fun h => by rw [hiter, counter_eq_of_isInt h]⟩
  rw [hf, hw]
  simp

/-- C1, instance: batch size 2, rehash interval 4, second batch of epoch 0. -/
theorem readDataSvm_rehash_flag_witness :
    ∃ c : Call Dec,
      (readDataSvm decimalModel cfgHashed (some fileThree) (some fileThree) 2 0).calls[1]?
        = some c ∧
      intDiv cfgHashed.Rehash cfgHashed.BatchSize = .ok 2 ∧
      c.iter = counter 0 2 (1 : Nat) ∧
      (c.rehash = true ↔ Int.tmod (counter 0 2 (1 : Nat)) 2 = 2 - 1) :=
  ⟨_, rfl, rfl,
    (readDataSvm_rehash_flag decimalModel cfgHashed (some fileThree) (some fileThree) 2 0 1 _ 2
      (Or.inl rfl) rfl (by decide) rfl).1,
    (readDataSvm_rehash_flag decimalModel cfgHashed (some fileThree) (some fileThree) 2 0 1 _ 2
      (Or.inl rfl) rfl (by decide) rfl).2.1⟩

/-- C2: in a hashed layer mode with `Rebuild/BatchSize = q >= 1`, the rebuild flag of the
`i`-th `ProcessInput` call of `readDataSvm` is true exactly when the counter
`epoch*numBatches+i` modulo `q` equals `q - 1`: the rehash formula with the rebuild
interval on both sides. -/
theorem readDataSvm_rebuild_flag {F : Type} (fm : FloatModel F) (cfg : Config)
    (train test : Option File) (numBatches epoch : Int) (i : Nat) (c : Call F) (q : Int)
    (hmode : cfg.LayerMode = LayerMode.LayerMode1 ∨ cfg.LayerMode = LayerMode.LayerMode4)
    (hq : intDiv cfg.Rebuild cfg.BatchSize = .ok q) (hq1 : 1 ≤ q)
    (hc : (readDataSvm fm cfg train test numBatches epoch).calls[i]? = some c) :
    c.iter = counter epoch numBatches i ∧
    (c.rebuild = true ↔ Int.tmod (counter epoch numBatches i) q = q - 1) ∧
    (isInt (epoch * numBatches + i) → c.iter = epoch * numBatches + i) := by
  obtain ⟨hiter, htr⟩ := readDataSvm_flags fm cfg train test numBatches epoch i c hc
  obtain ⟨_, hrb⟩ := triggers_hashed hmode htr
  obtain ⟨_, hf⟩ := due_of_quotient hq hrb
  have hqi := intDiv_isInt hq
  have hw : wrapInt (q - 1) = q - 1 := wrapInt_of_isInt (by unfold isInt at *; omega)
  refine ⟨hiter, ?_, fun h => by rw [hiter, counter_eq_of_isInt h]⟩
  rw [hf, hw]
  simp

/-- C2, instance: batch size 2, rebuild interval 6, second batch of epoch 1 (counter 3). -/
theorem readDataSvm_rebuild_flag_witness :
    ∃ c : Call Dec,
      (readDataSvm decimalModel cfgHashed (some fileThree) (some fileThree) 2 1).calls[1]?
        = some c ∧
      intDiv cfgHashed.Rebuild cfgHashed.BatchSize = .ok 3 ∧
      c.rebuild = false ∧
      (c.rebuild = true ↔ Int.tmod (counter 1 2 (1 : Nat)) 3 = 3 - 1) :=
  ⟨_, rfl, rfl, rfl,
    (readDataSvm_rebuild_flag decimalModel cfgHashed (some fileThree) (some fileThree) 2 1 1 _ 3
      (Or.inl rfl) rfl (by decide) rfl).2.1⟩

/-- C4: when the layer mode is neither `LayerMode1` nor `LayerMode4`, every `ProcessInput`
call of `readDataSvm` carries rehash = false and rebuild = false, whatever the epoch, the
batch index, the intervals and the batch size. -/
theorem readDataSvm_flags_off {F : Type} (fm : FloatModel F) (cfg : Config)
    (train test : Option File) (numBatches epoch : Int) (i : Nat) (c : Call F)
    (hmode : ¬ (cfg.LayerMode = LayerMode.LayerMode1 ∨ cfg.LayerMode = LayerMode.LayerMode4))
    (hc : (readDataSvm fm cfg train test numBatches epoch).calls[i]? = some c) :
    c.rehash = false ∧ c.rebuild = false := by
  obtain ⟨_, htr⟩ := readDataSvm_flags fm cfg train test numBatches epoch i c hc
  rw [triggers_not_hashed hmode] at htr
  have h := Except.ok.inj htr
  rw [Prod.mk.injEq] at h
  exact ⟨h.1.symm, h.2.symm⟩

/-- C4, instance: intervals 1 below the batch size 2, a call is issued with both flags off. -/
theorem readDataSvm_flags_off_witness :
    ∃ c : Call Dec,
      (readDataSvm decimalModel cfgPlain (some fileThree) (some fileThree) 2 0).calls[1]?
        = some c ∧
      c.rehash = false ∧ c.rebuild = false :=
  ⟨_, rfl,
    readDataSvm_flags_off decimalModel cfgPlain (some fileThree) (some fileThree) 2 0 1 _
      (by decide) rfl⟩

/-- C9, refuted: with rehash interval 10, rebuild interval 15 and batch size 5, at counter 2
the rebuild flag is true although the counter modulo `Rehash/BatchSize = 2` is not
`2 - 1`; and no change of `Rehash` alone ever changes a rebuild flag. -/
theorem rebuild_uses_rehash_divisor_counterexample :
    triggers cfgCoupling 0 4 2 = .ok (false, true) ∧
    intDiv cfgCoupling.Rehash cfgCoupling.BatchSize = .ok 2 ∧
    Int.tmod (counter 0 4 2) 2 ≠ 2 - 1 ∧
    ¬ ∃ (r e nb i : Int) (f g : Bool × Bool),
        triggers cfgCoupling e nb i = .ok f ∧
        triggers { cfgCoupling with Rehash := r } e nb i = .ok g ∧ f.2 ≠ g.2 := by
  refine ⟨rfl, rfl, by decide, ?_⟩
  rintro ⟨r, e, nb, i, ⟨f1, f2⟩, ⟨g1, g2⟩, hf, hg, hne⟩
  obtain ⟨_, h1⟩ := triggers_hashed (Or.inl rfl) hf
  obtain ⟨_, h2⟩ := @triggers_hashed { cfgCoupling with Rehash := r } _ _ _ _ _ (Or.inl rfl) hg
  have : due (counter e nb i) cfgCoupling.Rebuild cfgCoupling.BatchSize = .ok g2 := h2
  rw [h1] at this
  cases this
  exact hne rfl

/-- C9, amended: the rebuild flag of a `ProcessInput` call does not depend on the rehash
interval.  Two configurations with the same rebuild interval, batch size and layer mode
give the same rebuild flag (and the same iteration number) to the `i`-th call. -/
theorem readDataSvm_rebuild_independent_of_rehash {F : Type} (fm : FloatModel F)
    (cfg cfg2 : Config) (train test train2 test2 : Option File) (numBatches epoch : Int)
    (i : Nat) (c c2 : Call F)
    (hU : cfg2.Rebuild = cfg.Rebuild) (hB : cfg2.BatchSize = cfg.BatchSize)
    (hM : cfg2.LayerMode = cfg.LayerMode)
    (hc : (readDataSvm fm cfg train test numBatches epoch).calls[i]? = some c)
    (hc2 : (readDataSvm fm cfg2 train2 test2 numBatches epoch).calls[i]? = some c2) :
    c2.rebuild = c.rebuild ∧ c2.iter = c.iter := by
  obtain ⟨hiter, htr⟩ := readDataSvm_flags fm cfg train test numBatches epoch i c hc
  obtain ⟨hiter2, htr2⟩ := readDataSvm_flags fm cfg2 train2 test2 numBatches epoch i c2 hc2
  refine ⟨?_, by rw [hiter, hiter2]⟩
  by_cases hmode : cfg.LayerMode = LayerMode.LayerMode1 ∨ cfg.LayerMode = LayerMode.LayerMode4
  · obtain ⟨_, h1⟩ := triggers_hashed hmode htr
    obtain ⟨_, h2⟩ := triggers_hashed (hM ▸ hmode) htr2
    rw [hU, hB, h1] at h2
    exact (Except.ok.inj h2).symm
  · rw [triggers_not_hashed hmode] at htr
    rw [triggers_not_hashed (hM ▸ hmode)] at htr2
    have h1 := Except.ok.inj htr
    have h2 := Except.ok.inj htr2
    rw [Prod.mk.injEq] at h1 h2
    rw [← h1.2, ← h2.2]

/-- C9, instance: rehash interval 4 against rehash interval 6, same rebuild interval. -/
theorem readDataSvm_rebuild_independent_of_rehash_witness :
    ∃ c c2 : Call Dec,
      (readDataSvm decimalModel cfgHashed (some fileThree) (some fileThree) 2 0).calls[1]?
        = some c ∧
      (readDataSvm decimalModel { cfgHashed with Rehash := 6 } (some fileThree)
        (some fileThree) 2 0).calls[1]? = some c2 ∧
      c.rehash ≠ c2.rehash ∧ c2.rebuild = c.rebuild ∧ c2.iter = c.iter :=
  ⟨_, _, rfl, rfl, by decide,
    readDataSvm_rebuild_independent_of_rehash decimalModel cfgHashed
      { cfgHashed with Rehash := 6 } (some fileThree) (some fileThree) (some fileThree)
      (some fileThree) 2 0 1 _ _ rfl rfl rfl rfl rfl⟩

theorem triggers_of_due {cfg : Config} {e nb i : Int} {rh rb : Bool}
    (hmode : cfg.LayerMode = LayerMode.LayerMode1 ∨ cfg.LayerMode = LayerMode.LayerMode4)
    (h1 : due (counter e nb i) cfg.Rehash cfg.BatchSize = .ok rh)
    (h2 : due (counter e nb i) cfg.Rebuild cfg.BatchSize = .ok rb) :
    triggers cfg e nb i = .ok (rh, rb) := by
  unfold triggers
  rw [if_pos hmode]
  simp [h1, h2, bind, Except.bind, pure, Except.pure]

theorem triggers_panic {cfg : Config} {e nb i : Int}
    (hmode : cfg.LayerMode = LayerMode.LayerMode1 ∨ cfg.LayerMode = LayerMode.LayerMode4)
    (hB : cfg.BatchSize ≠ 0)
    (h : intDiv cfg.Rehash cfg.BatchSize = .ok 0 ∨ intDiv cfg.Rebuild cfg.BatchSize = .ok 0) :
    triggers cfg e nb i = .error .panic := by
  unfold triggers
  rw [if_pos hmode]
  rcases h with h | h
  · simp [due_zero_quotient h, bind, Except.bind]
  · by_cases h0 : wrapInt (Int.tdiv cfg.Rehash cfg.BatchSize) = 0
    · have h1 : intDiv cfg.Rehash cfg.BatchSize = .ok 0 := by
        unfold intDiv; rw [if_neg hB, h0]
      simp [due_zero_quotient h1, bind, Except.bind]
    · have h1 : intDiv cfg.Rehash cfg.BatchSize =
          .ok (wrapInt (Int.tdiv cfg.Rehash cfg.BatchSize)) := by
        unfold intDiv; rw [if_neg hB]
      simp [due_defined h1 h0, due_zero_quotient h, bind, Except.bind]

theorem readDataSvm_no_call_of_panic {F : Type} (fm : FloatModel F) (cfg : Config)
    (train test : Option File) (nb e : Int)
    (h : ∀ i : Int, triggers cfg e nb i = .error .panic) :
    (readDataSvm fm cfg train test nb e).calls = [] ∧
    (0 < nb → (readDataSvm fm cfg train test nb e).abort ≠ none) := by
  have hnil : (readDataSvm fm cfg train test nb e).calls = [] := by
    cases hcs : (readDataSvm fm cfg train test nb e).calls with
    | nil => rfl
    | cons c cs =>
      have hc : (readDataSvm fm cfg train test nb e).calls[0]? = some c := by rw [hcs]; simp
      obtain ⟨_, htr⟩ := readDataSvm_flags fm cfg train test nb e 0 c hc
      rw [h] at htr
      cases htr
  refine ⟨hnil, fun hpos hab => ?_⟩
  have hlen := (readDataSvm_length fm cfg train test nb e).2 hab
  rw [hnil] at hlen
  simp at hlen
  omega

/-- C10, refuted as stated: with batch size 2 and rehash interval -4 (hashed mode) the
quotient `Rehash/BatchSize` is -2, no modulus by zero is ever taken and `ProcessInput` is
called, although `Rehash < BatchSize`. -/
theorem modulus_by_zero_iff_counterexample :
    (cfgNegative.LayerMode = LayerMode.LayerMode1 ∨
      cfgNegative.LayerMode = LayerMode.LayerMode4) ∧
    0 < cfgNegative.BatchSize ∧
    intDiv cfgNegative.Rehash cfgNegative.BatchSize = .ok (-2) ∧
    (∀ e nb i : Int, ∃ f, triggers cfgNegative e nb i = .ok f) ∧
    (readDataSvm decimalModel cfgNegative (some fileThree) (some fileThree) 2 0).calls.length
      = 2 ∧
    ¬ (cfgNegative.Rehash ≥ cfgNegative.BatchSize ∧
        cfgNegative.Rebuild ≥ cfgNegative.BatchSize) := by
  refine ⟨Or.inr rfl, by decide, rfl, ?_, rfl, by decide⟩
  intro e nb i
  exact ⟨_, triggers_of_due (Or.inr rfl)
    (@due_defined _ _ _ (-2) (by rfl) (by decide)) (@due_defined _ _ _ 1 (by rfl) (by decide))⟩

/-- C10, amended: in a hashed layer mode with `BatchSize > 0`, the trigger computation of
`readDataSvm` never takes a modulus by zero if and only if `|Rehash| >= BatchSize` and
`|Rebuild| >= BatchSize` (for non-negative intervals: `Rehash >= BatchSize` and
`Rebuild >= BatchSize`).  When the magnitude of either interval is smaller than the batch
size its quotient is 0, the computation panics for every epoch and batch index, and
`readDataSvm` issues no `ProcessInput` call and does not return when it has a batch to run. -/
theorem modulus_by_zero_iff (cfg : Config)
    (hmode : cfg.LayerMode = LayerMode.LayerMode1 ∨ cfg.LayerMode = LayerMode.LayerMode4)
    (hB : 0 < cfg.BatchSize) (hR : isInt cfg.Rehash) (hU : isInt cfg.Rebuild) :
    ((∀ e nb i : Int, ∃ f, triggers cfg e nb i = .ok f) ↔
      (cfg.BatchSize ≤ |cfg.Rehash| ∧ cfg.BatchSize ≤ |cfg.Rebuild|)) ∧
    (0 ≤ cfg.Rehash → 0 ≤ cfg.Rebuild →
      ((∀ e nb i : Int, ∃ f, triggers cfg e nb i = .ok f) ↔
        (cfg.Rehash ≥ cfg.BatchSize ∧ cfg.Rebuild ≥ cfg.BatchSize))) ∧
    ((|cfg.Rehash| < cfg.BatchSize ∨ |cfg.Rebuild| < cfg.BatchSize) →
      (intDiv cfg.Rehash cfg.BatchSize = .ok 0 ∨ intDiv cfg.Rebuild cfg.BatchSize = .ok 0) ∧
      (∀ e nb i : Int, triggers cfg e nb i = .error .panic) ∧
      (∀ (F : Type) (fm : FloatModel F) (train test : Option File) (nb e : Int),
        (readDataSvm fm cfg train test nb e).calls = [] ∧
        (0 < nb → (readDataSvm fm cfg train test nb e).abort ≠ none))) := by
  obtain ⟨q1, hq1, hz1⟩ := intDiv_pos_divisor hR hB
  obtain ⟨q2, hq2, hz2⟩ := intDiv_pos_divisor hU hB
  have hbad : (|cfg.Rehash| < cfg.BatchSize ∨ |cfg.Rebuild| < cfg.BatchSize) →
      (intDiv cfg.Rehash cfg.BatchSize = .ok 0 ∨
        intDiv cfg.Rebuild cfg.BatchSize = .ok 0) := by
    rintro (h | h)
    · left; rw [hq1, hz1.2 h]
    · right; rw [hq2, hz2.2 h]
  have hiff : (∀ e nb i : Int, ∃ f, triggers cfg e nb i = .ok f) ↔
      (cfg.BatchSize ≤ |cfg.Rehash| ∧ cfg.BatchSize ≤ |cfg.Rebuild|) := by
    constructor
    · intro h
      obtain ⟨⟨rh, rb⟩, hf⟩ := h 0 0 0
      obtain ⟨h1, h2⟩ := triggers_hashed hmode hf
      have n1 := (due_of_quotient hq1 h1).1
      have n2 := (due_of_quotient hq2 h2).1
      constructor
      · by_contra hlt
        exact n1 (hz1.2 (by omega))
      · by_contra hlt
        exact n2 (hz2.2 (by omega))
    · rintro ⟨h1, h2⟩ e nb i
      have n1 : q1 ≠ 0 := fun h => by have := hz1.1 h; omega
      have n2 : q2 ≠ 0 := fun h => by have := hz2.1 h; omega
      exact ⟨_, triggers_of_due hmode (due_defined hq1 n1) (due_defined hq2 n2)⟩
  refine ⟨hiff, ?_, ?_⟩
  · intro h1 h2
    rw [hiff, abs_of_nonneg h1, abs_of_nonneg h2]
  · intro h
    have hp : ∀ e nb i : Int, triggers cfg e nb i = .error .panic :=
      fun e nb i => triggers_panic hmode (by omega) (hbad h)
    exact ⟨hbad h, hp, fun F fm train test nb e =>
      readDataSvm_no_call_of_panic fm cfg train test nb e (fun i => hp e nb i)⟩

/-- C10, instance: batch size 2 with rehash interval 1; the first batch already panics. -/
theorem modulus_by_zero_iff_witness :
    (Config.LayerMode cfgShort = LayerMode.LayerMode1 ∨
      Config.LayerMode cfgShort = LayerMode.LayerMode4) ∧
    0 < cfgShort.BatchSize ∧ isInt cfgShort.Rehash ∧ isInt cfgShort.Rebuild ∧
    |cfgShort.Rehash| < cfgShort.BatchSize ∧
    triggers cfgShort 0 2 0 = .error .panic ∧
    (readDataSvm decimalModel cfgShort (some fileThree) (some fileThree) 2 0).calls = [] :=
  ⟨Or.inl rfl, by decide, by decide, by decide, by decide,
    ((modulus_by_zero_iff cfgShort (Or.inl rfl) (by decide) (by decide) (by decide)).2.2
      (Or.inl (by decide))).2.1 0 2 0,
    ((((modulus_by_zero_iff cfgShort (Or.inl rfl) (by decide) (by decide) (by decide)).2.2
      (Or.inl (by decide))).2.2 Dec decimalModel (some fileThree) (some fileThree) 2 0).1)⟩

/-! ## The layer types built by `main` -/

theorem setReLU_spec : ∀ (n i : Nat) (ts : List NodeType), i + n ≤ ts.length →
    ∃ ts1, setReLU n i ts = .ok ts1 ∧ ts1.length = ts.length ∧
      ∀ j : Nat, ts1[j]? = if i ≤ j ∧ j < i + n then some NodeType.ReLU else ts[j]? := by
  intro n
  induction n with
  | zero =>
    intro i ts _
    refine ⟨ts, rfl, rfl, fun j => ?_⟩
    rw [if_neg (by omega)]
  | succ n ih =>
    intro i ts h
    unfold setReLU store
    rw [if_pos (by omega)]
    obtain ⟨ts1, h1, h2, h3⟩ := ih (i + 1) (ts.set i NodeType.ReLU) (by simp; omega)
    refine ⟨ts1, h1, by simpa using h2, fun j => ?_⟩
    rw [h3 j]
    by_cases hj : i + 1 ≤ j ∧ j < i + 1 + n
    · rw [if_pos hj, if_pos (by omega)]
    · rw [if_neg hj]
      by_cases hij : j = i
      · subst hij
        rw [if_pos (by omega), List.getElem?_set_self (by omega)]
      · rw [if_neg (by omega)]
        simp [List.getElem?_set, Ne.symm hij]

/-- C6: for every `NumLayer >= 1` (a Go `int`), the `layersTypes` slice that `main` builds
for `network.New` has length `NumLayer`, holds `ReLU` at every index below `NumLayer-1`
and `Softmax` at index `NumLayer-1`. -/
theorem layersTypes_relu_then_softmax (zero : NodeType) (NumLayer : Int)
    (h1 : 1 ≤ NumLayer) (h2 : NumLayer < 2 ^ 63) :
    ∃ ts, layersTypes zero NumLayer = .ok ts ∧ (ts.length : Int) = NumLayer ∧
      (∀ i : Nat, (i : Int) < NumLayer - 1 → ts[i]? = some NodeType.ReLU) ∧
      ts[(NumLayer - 1).toNat]? = some NodeType.Softmax := by
  have hw : wrapInt (NumLayer - 1) = NumLayer - 1 :=
    wrapInt_of_isInt (by unfold isInt; omega)
  obtain ⟨ts1, e1, l1, g1⟩ := setReLU_spec (NumLayer - 1).toNat 0
    (List.replicate NumLayer.toNat zero) (by simp)
  have hlen : ts1.length = NumLayer.toNat := by simpa using l1
  refine ⟨ts1.set (NumLayer - 1).toNat NodeType.Softmax, ?_, ?_, ?_, ?_⟩
  · unfold layersTypes makeSlice
    rw [if_neg (by omega), hw]
    simp only [bind, Except.bind, e1]
    rw [if_neg (by omega)]
    simp only [pure, Except.pure]
    unfold store
    rw [if_pos (by omega)]
  · simp [hlen]
    omega
  · intro i hi
    rw [List.getElem?_set_ne (by omega), g1 i, if_pos (by omega)]
  · rw [List.getElem?_set_self (by omega)]

/-- C6, instance: three layers. -/
theorem layersTypes_relu_then_softmax_witness :
    (1 : Int) ≤ 3 ∧ (3 : Int) < 2 ^ 63 ∧
    layersTypes NodeType.Softmax 3
      = .ok [NodeType.ReLU, NodeType.ReLU, NodeType.Softmax] ∧
    ∃ ts, layersTypes NodeType.Softmax 3 = .ok ts ∧ (ts.length : Int) = 3 ∧
      (∀ i : Nat, (i : Int) < 3 - 1 → ts[i]? = some NodeType.ReLU) ∧
      ts[((3 : Int) - 1).toNat]? = some NodeType.Softmax :=
  ⟨by decide, by decide, rfl,
    layersTypes_relu_then_softmax NodeType.Softmax 3 (by decide) (by decide)⟩

/-! ## The `ProcessInput` calls of a whole run -/

theorem epochLoop_call {F : Type} (fm : FloatModel F) (cfg : Config)
    (train test : Option File) (nb nbt : Int) :
    ∀ (n : Nat) (e : Int) (k : Nat) (c : Call F),
      (epochLoop fm cfg train test nb nbt n e).calls[k]? = some c →
      ∃ d j : Nat, k = d * nb.toNat + j ∧
        (readDataSvm fm cfg train test nb (e + d)).calls[j]? = some c := by
  intro n
  induction n with
  | zero => intro e k c h; simp [epochLoop] at h
  | succ n ih =>
    intro e k c h
    unfold epochLoop at h
    simp only [] at h
    split at h
    · exact ⟨0, k, by simp, by simpa using h⟩
    · rename_i hab
      split at h
      · exact ⟨0, k, by simp, by simpa using h⟩
      · simp only [] at h
        have hlen := (readDataSvm_length fm cfg train test nb e).2 hab
        by_cases hk : k < nb.toNat
        · rw [List.getElem?_append_left (by omega)] at h
          exact ⟨0, k, by simp, by simpa using h⟩
        · rw [List.getElem?_append_right (by omega), hlen] at h
          obtain ⟨d, j, hd, hj⟩ := ih (e + 1) (k - nb.toNat) c h
          refine ⟨d + 1, j, ?_, ?_⟩
          · rw [Nat.add_mul]; omega
          · have : e + ((d + 1 : Nat) : Int) = e + 1 + (d : Int) := by push_cast; ring
            rw [this]; exact hj

theorem main_call {F : Type} (fm : FloatModel F) (zero : NodeType) (cfg : Config)
    (train test : Option File) (k : Nat) (c : Call F)
    (h : (main fm zero cfg train test).calls[k]? = some c) :
    ∃ (nb : Int) (d j : Nat), intDiv cfg.TotRecords cfg.BatchSize = .ok nb ∧
      k = d * nb.toNat + j ∧
      (readDataSvm fm cfg train test nb d).calls[j]? = some c := by
  unfold main at h
  split at h
  · rename_i nb nbt _ hnb _ _
    obtain ⟨d, j, hd, hj⟩ := epochLoop_call fm cfg train test nb nbt _ 0 k c h
    exact ⟨nb, d, j, hnb, hd, by simpa using hj⟩
  · simp at h

/-- C3: with rehash interval 10 and batch size 5 in a hashed layer mode, the `k`-th
`ProcessInput` call of a whole run of `main` (`k` counted from 0 across all epochs, a Go
`int`) has iteration number `k` and carries rehash = true exactly when `k` is odd; the flag
is the function `k % 2 = 1` of `k`. -/
theorem main_rehash_every_second_batch {F : Type} (fm : FloatModel F) (zero : NodeType)
    (cfg : Config) (train test : Option File) (k : Nat) (c : Call F)
    (hR : cfg.Rehash = 10) (hB : cfg.BatchSize = 5)
    (hmode : cfg.LayerMode = LayerMode.LayerMode1 ∨ cfg.LayerMode = LayerMode.LayerMode4)
    (hk : (k : Int) < 2 ^ 63)
    (hc : (main fm zero cfg train test).calls[k]? = some c) :
    c.iter = k ∧ (c.rehash = true ↔ k % 2 = 1) ∧ c.rehash = decide (k % 2 = 1) := by
  obtain ⟨nb, d, j, _, hkdj, hj⟩ := main_call fm zero cfg train test k c hc
  obtain ⟨hiter, htr⟩ := readDataSvm_flags fm cfg train test nb d j c hj
  have hjlt : j < nb.toNat := by
    have h1 := (readDataSvm_length fm cfg train test nb d).1
    have h2 : j < (readDataSvm fm cfg train test nb d).calls.length := by
      by_contra hge
      rw [List.getElem?_eq_none (by omega)] at hj
      cases hj
    omega
  have hnb : ((nb.toNat : Nat) : Int) = nb := Int.toNat_of_nonneg (by omega)
  have hkz : (k : Int) = d * nb + j := by
    rw [hkdj]; push_cast; rw [hnb]
  have hcnt : counter d nb j = k := by
    rw [counter_eq_of_isInt (by unfold isInt; omega), hkz]
  have hit : c.iter = k := by rw [hiter, hcnt]
  obtain ⟨hrh, _⟩ := triggers_hashed hmode htr
  rw [hR, hB, hcnt] at hrh
  obtain ⟨_, hf⟩ := @due_of_quotient _ _ _ 2 _ (by rfl) hrh
  have hw : wrapInt ((2 : Int) - 1) = 1 := by decide
  have hm : Int.tmod (k : Int) 2 = (k : Int) % 2 :=
    Int.tmod_eq_emod (by omega) (by omega)
  rw [hw, hm] at hf
  have hiff : c.rehash = true ↔ k % 2 = 1 := by
    rw [hf]; simp; omega
  refine ⟨hit, hiff, ?_⟩
  cases hr : c.rehash
  · rw [hr] at hiff; simp at hiff ⊢; omega
  · rw [hr] at hiff; simp at hiff ⊢; omega

/-- C3, instance: two epochs of two batches; the fourth call (`k = 3`) rehashes, the third
does not. -/
theorem main_rehash_every_second_batch_witness :
    ∃ c c2 : Call Dec,
      (main decimalModel NodeType.ReLU cfgTen (some fileTen) (some fileTen)).calls[3]?
        = some c ∧
      (main decimalModel NodeType.ReLU cfgTen (some fileTen) (some fileTen)).calls[2]?
        = some c2 ∧
      c2.rehash = false ∧
      c.iter = (3 : Nat) ∧ (c.rehash = true ↔ 3 % 2 = 1) ∧ c.rehash = decide (3 % 2 = 1) :=
  ⟨_, _, rfl, rfl, rfl,
    main_rehash_every_second_batch decimalModel NodeType.ReLU cfgTen (some fileTen)
      (some fileTen) 3 _ rfl rfl (Or.inl rfl) (by decide) rfl⟩

/-! ## `Split` and `parseLine` -/

theorem Split_cons (c : Char) (cs : GoString) (sep : Char) :
    Split (c :: cs) sep =
      if c = sep then [] :: Split cs sep
      else
        match Split cs sep with
        | [] => [[c]]
        | t :: ts => (c :: t) :: ts := by
  rw [Split]

theorem Split_eq (sep : Char) : ∀ s : GoString,
    Split s sep = before sep s :: (if sep ∈ s then Split (after sep s) sep else []) := by
  intro s
  induction s with
  | nil => simp [Split, before]
  | cons c cs ih =>
    rw [Split_cons]
    by_cases hc : c = sep
    · subst hc
      simp [before, after]
    · rw [if_neg hc, ih]
      have h1 : before sep (c :: cs) = c :: before sep cs := by
        simp [before, hc]
      have h2 : after sep (c :: cs) = after sep cs := by
        simp [after, hc]
      have h3 : (sep ∈ c :: cs) ↔ sep ∈ cs := by
        simp [Ne.symm hc]
      simp only [h1, h2, h3]

theorem Split_no_sep {sep : Char} {s : GoString} (h : sep ∉ s) : Split s sep = [s] := by
  rw [Split_eq, if_neg h]
  have : before sep s = s := by
    unfold before
    rw [List.takeWhile_eq_self_iff]
    intro c hc
    have : c ≠ sep := fun e => h (e ▸ hc)
    simp [this]
  rw [this]

theorem Split_with_sep {sep : Char} {s : GoString} (h : sep ∈ s) :
    ∃ rest, Split s sep = before sep s :: before sep (after sep s) :: rest := by
  rw [Split_eq, if_pos h, Split_eq sep (after sep s)]
  exact ⟨_, rfl⟩

theorem foldl_snoc {α : Type} (xs init : List α) :
    xs.foldl (fun acc s => acc ++ [s]) init = init ++ xs := by
  induction xs generalizing init with
  | nil => simp
  | cons x xs ih => simp [ih]

theorem parseTokens_eq : ∀ (rest list value : List GoString),
    parseTokens rest list value =
      if ∀ tok ∈ rest, ':' ∈ tok then
        .ok (list ++ rest.map indexText, value ++ rest.map valueText)
      else .error .panic := by
  intro rest
  induction rest with
  | nil => intro list value; simp [parseTokens]
  | cons t rest ih =>
    intro list value
    unfold parseTokens
    by_cases ht : ':' ∈ t
    · obtain ⟨r, hr⟩ := Split_with_sep ht
      rw [hr]
      simp only [ih]
      by_cases hall : ∀ tok ∈ rest, ':' ∈ tok
      · rw [if_pos hall, if_pos (by simpa [ht] using hall)]
        simp [indexText, valueText]
      · rw [if_neg hall, if_neg (by simpa [ht] using hall)]
    · rw [Split_no_sep ht, if_neg (by simp [ht])]

theorem parseLine_eq (line : GoString) :
    parseLine line =
      if ∀ tok ∈ (Split line ' ').tail, ':' ∈ tok then
        .ok (Split ((Split line ' ').headD []) ',', (Split line ' ').tail.map indexText,
          (Split line ' ').tail.map valueText)
      else .error .panic := by
  unfold parseLine
  obtain ⟨first, rest, h⟩ : ∃ first rest, Split line ' ' = first :: rest :=
    ⟨_, _, Split_eq ' ' line⟩
  rw [h]
  simp only [parseTokens_eq, List.tail_cons, List.headD_cons, List.nil_append]
  by_cases hall : ∀ tok ∈ rest, ':' ∈ tok
  · simp only [if_pos hall, foldl_snoc, List.nil_append]
  · simp only [if_neg hall]

/-! ## The conversion loops and one record -/

theorem convertAll_length {α : Type} (conv : GoString → Option α) :
    ∀ (src : List GoString) (vs : List α), convertAll conv src = some vs →
      vs.length = src.length := by
  intro src
  induction src with
  | nil => intro vs h; simp [convertAll] at h; simp [← h]
  | cons s rest ih =>
    intro vs h
    unfold convertAll at h
    split at h
    · rename_i v ws _ hw
      cases h
      simp [ih ws hw]
    · cases h

theorem convertAll_none_of_mem {α : Type} (conv : GoString → Option α) :
    ∀ (src : List GoString) (s : GoString), s ∈ src → conv s = none →
      convertAll conv src = none := by
  intro src
  induction src with
  | nil => intro s h; simp at h
  | cons t rest ih =>
    intro s hs hn
    unfold convertAll
    rcases List.mem_cons.1 hs with h | h
    · subst h
      simp [hn]
    · rw [ih s h hn]
      cases conv t <;> rfl

theorem fill_eq {α : Type} (conv : GoString → Option α) :
    ∀ (src : List GoString) (pre mid post : List α), mid.length = src.length →
      fill conv src pre.length (pre ++ mid ++ post) =
        match convertAll conv src with
        | some vs => .ok (pre ++ vs ++ post)
        | none => .error .fatal := by
  intro src
  induction src with
  | nil =>
    intro pre mid post h
    have : mid = [] := List.length_eq_zero.1 (by simpa using h)
    subst this
    simp [fill, convertAll]
  | cons s rest ih =>
    intro pre mid post h
    cases mid with
    | nil => simp at h
    | cons m mid =>
      unfold fill convertAll
      rw [if_pos (by simp)]
      cases hs : conv s with
      | none => rfl
      | some v =>
        have hset : (pre ++ m :: mid ++ post).set pre.length v
            = (pre ++ [v]) ++ mid ++ post := by
          simp [List.set_append]
        have hk : pre.length + 1 = (pre ++ [v]).length := by simp
        simp only []
        rw [hset, hk, ih (pre ++ [v]) mid post (by simpa using h)]
        cases convertAll conv rest <;> simp

theorem fill_replicate {α : Type} (conv : GoString → Option α) (src : List GoString)
    (n : Nat) (z : α) (h : n = src.length) :
    fill conv src 0 (List.replicate n z) =
      match convertAll conv src with
      | some vs => .ok vs
      | none => .error .fatal := by
  have := fill_eq conv src [] (List.replicate n z) [] (by simp [h])
  simp only [List.length_nil, List.nil_append, List.append_nil] at this
  exact this

theorem parseLine_lengths {line : GoString} {label list value : List GoString}
    (h : parseLine line = .ok (label, list, value)) : value.length = list.length := by
  rw [parseLine_eq] at h
  split at h
  · have h1 := Except.ok.inj h
    simp only [Prod.mk.injEq] at h1
    rw [← h1.2.1, ← h1.2.2]
    simp
  · cases h

theorem readRecord_spec {F : Type} (fm : FloatModel F) (line : GoString) (b b1 : Batch F)
    (count : Nat) (h : readRecord fm line b count = .ok b1) :
    (count < b.records.length ∧ count < b.values.length ∧ count < b.sizes.length ∧
      count < b.labels.length ∧ count < b.labelSize.length) ∧
    ∃ r, parseRecord fm line = .ok r ∧
      b1 = ⟨b.records.set count r.record, b.values.set count r.value,
        b.sizes.set count r.size, b.labels.set count r.label,
        b.labelSize.set count r.labelSize⟩ := by
  unfold readRecord at h
  unfold parseRecord
  cases hp : parseLine line with
  | error e => rw [hp] at h; simp [bind, Except.bind] at h
  | ok t =>
    obtain ⟨label, list, value⟩ := t
    have hlen := parseLine_lengths hp
    rw [hp] at h
    simp only [bind, Except.bind, pure, Except.pure, store] at h
    rw [fill_replicate Atoi list _ _ rfl, fill_replicate fm.ParseFloat value _ _ hlen.symm,
      fill_replicate Atoi label _ _ rfl] at h
    by_cases c1 : count < b.records.length
    swap
    · simp [c1] at h
    by_cases c2 : count < b.values.length
    swap
    · simp [c1, c2] at h
    by_cases c3 : count < b.labels.length
    swap
    · simp [c1, c2, c3] at h
    by_cases c4 : count < b.sizes.length
    swap
    · simp [c1, c2, c3, c4] at h
    by_cases c5 : count < b.labelSize.length
    swap
    · simp [c1, c2, c3, c4, c5] at h
    cases ha : convertAll Atoi list with
    | none => simp [c1, c2, c3, c4, c5, ha] at h
    | some idx =>
      cases hb : convertAll fm.ParseFloat value with
      | none => simp [c1, c2, c3, c4, c5, ha, hb] at h
      | some vals =>
        cases hc : convertAll Atoi label with
        | none => simp [c1, c2, c3, c4, c5, ha, hb, hc] at h
        | some labs =>
          simp only [c1, c2, c3, c4, c5, ha, hb, hc, if_true, List.set_set] at h
          refine ⟨⟨c1, c2, c4, c3, c5⟩,
            ⟨idx, vals, (list.length : Int), labs, (label.length : Int)⟩, ?_, ?_⟩
          · simp only [ha, hb, hc]
          · exact (Except.ok.inj h).symm

/-! ## One batch -/

theorem row_set {F : Type} (b : Batch F) (n count : Nat) (r : Row F)
    (hs : b.Sized n) (hc : count < n) :
    (Batch.mk (b.records.set count r.record) (b.values.set count r.value)
        (b.sizes.set count r.size) (b.labels.set count r.label)
        (b.labelSize.set count r.labelSize)).Sized n ∧
    (Batch.mk (b.records.set count r.record) (b.values.set count r.value)
        (b.sizes.set count r.size) (b.labels.set count r.label)
        (b.labelSize.set count r.labelSize)).row? count = some r ∧
    ∀ j, j ≠ count →
      (Batch.mk (b.records.set count r.record) (b.values.set count r.value)
        (b.sizes.set count r.size) (b.labels.set count r.label)
        (b.labelSize.set count r.labelSize)).row? j = b.row? j := by
  obtain ⟨h1, h2, h3, h4, h5⟩ := hs
  refine ⟨⟨by simp [h1], by simp [h2], by simp [h3], by simp [h4], by simp [h5]⟩, ?_, ?_⟩
  · unfold Batch.row?
    simp only []
    rw [List.getElem?_set_self (by omega), List.getElem?_set_self (by omega),
      List.getElem?_set_self (by omega), List.getElem?_set_self (by omega),
      List.getElem?_set_self (by omega)]
  · intro j hj
    unfold Batch.row?
    simp only []
    rw [List.getElem?_set_ne (Ne.symm hj), List.getElem?_set_ne (Ne.symm hj),
      List.getElem?_set_ne (Ne.symm hj), List.getElem?_set_ne (Ne.symm hj),
      List.getElem?_set_ne (Ne.symm hj)]

theorem scanBatch_spec {F : Type} (fm : FloatModel F) (B : Int) (n : Nat) (hn : (n : Int) = B) :
    ∀ (lines : List GoString) (b : Batch F) (count : Nat)
      (res : Batch F × List GoString × Bool),
      b.Sized n → count ≤ n → scanBatch fm B lines b count = .ok res →
      res.2.1 = lines.drop (min (n - count) lines.length) ∧ res.1.Sized n ∧
      (∀ j, j < min (n - count) lines.length → ∀ line, lines[j]? = some line →
        ∃ r, parseRecord fm line = .ok r ∧ res.1.row? (count + j) = some r) ∧
      (∀ j, (j < count ∨ count + min (n - count) lines.length ≤ j) →
        res.1.row? j = b.row? j) := by
  intro lines
  induction lines with
  | nil =>
    intro b count res hs _ h
    simp only [scanBatch] at h
    have h := Except.ok.inj h
    subst h
    simp [hs]
  | cons line rest ih =>
    intro b count res hs hcn h
    unfold scanBatch at h
    cases hr : readRecord fm line b count with
    | error e => rw [hr] at h; cases h
    | ok b1 =>
      rw [hr] at h
      simp only [] at h
      obtain ⟨⟨c1, _⟩, r, hpr, hb1⟩ := readRecord_spec fm line b b1 count hr
      have hc : count < n := by rw [hs.1] at c1; exact c1
      obtain ⟨s1, rc, ro⟩ := row_set b n count r hs hc
      rw [← hb1] at s1 rc ro
      by_cases hge : ((count + 1 : Nat) : Int) ≥ B
      · rw [if_pos hge] at h
        have h := Except.ok.inj h
        subst h
        have hm : min (n - count) (line :: rest).length = 1 := by
          simp only [List.length_cons]; omega
        rw [hm]
        refine ⟨by simp, s1, ?_, ?_⟩
        · intro j hj l hl
          have : j = 0 := by omega
          subst this
          simp at hl
          subst hl
          exact ⟨r, hpr, by simpa using rc⟩
        · intro j hj
          exact ro j (by omega)
      · rw [if_neg hge] at h
        obtain ⟨i1, i2, i3, i4⟩ := ih b1 (count + 1) res s1 (by omega) h
        have hm : min (n - count) (line :: rest).length
            = min (n - (count + 1)) rest.length + 1 := by
          simp only [List.length_cons]; omega
        rw [hm]
        refine ⟨by rw [i1]; simp, i2, ?_, ?_⟩
        · intro j hj l hl
          cases j with
          | zero =>
            simp at hl
            subst hl
            refine ⟨r, hpr, ?_⟩
            rw [Nat.add_zero, i4 count (Or.inl (by omega))]
            exact rc
          | succ j =>
            simp only [List.getElem?_cons_succ] at hl
            obtain ⟨r2, hp2, hr2⟩ := i3 j (by omega) l hl
            refine ⟨r2, hp2, ?_⟩
            have : count + (j + 1) = count + 1 + j := by omega
            rw [this]; exact hr2
        · intro j hj
          rw [i4 j (by omega)]
          exact ro j (by omega)

theorem newBatch_spec {F : Type} (B : Int) (b : Batch F) (h : newBatch B = .ok b) :
    0 ≤ B ∧ b.Sized B.toNat ∧ ∀ j, j < B.toNat → b.row? j = some Row.empty := by
  unfold newBatch makeSlice at h
  by_cases hB : B < 0
  · simp [hB] at h
  · simp only [hB, if_false] at h
    have h := Except.ok.inj h
    subst h
    refine ⟨by omega, by simp [Batch.Sized], fun j hj => ?_⟩
    simp [Batch.row?, Row.empty, List.getElem?_replicate, hj]

theorem trainBatch_batch {F : Type} (fm : FloatModel F) (cfg : Config) (train : File)
    (test : Option File) (nb e i : Int) (sc sc1 : Scanner) (c : Call F)
    (h : trainBatch fm cfg train test nb e i sc = .ok (c, sc1)) :
    0 ≤ cfg.BatchSize ∧
    sc1.pending = sc.pending.drop (min cfg.BatchSize.toNat sc.pending.length) ∧
    c.batch.Sized cfg.BatchSize.toNat ∧
    (∀ j, j < cfg.BatchSize.toNat → ∀ line, sc.pending[j]? = some line →
      ∃ r, parseRecord fm line = .ok r ∧ c.batch.row? j = some r) ∧
    (∀ j, j < cfg.BatchSize.toNat → sc.pending[j]? = none →
      c.batch.row? j = some Row.empty) := by
  obtain ⟨b, r, hb, hs, hsc, hcb, _, _⟩ := trainBatch_ok fm cfg train test nb e i sc sc1 c h
  obtain ⟨h0, hsz, hempty⟩ := newBatch_spec cfg.BatchSize b hb
  obtain ⟨s1, s2, s3, s4⟩ := scanBatch_spec fm cfg.BatchSize cfg.BatchSize.toNat
    (Int.toNat_of_nonneg h0) sc.pending b 0 r hsz (by omega) hs
  simp only [Nat.sub_zero, Nat.zero_add] at s1 s2 s3 s4
  refine ⟨h0, by rw [hsc]; exact s1, by rw [hcb]; exact s2, ?_, ?_⟩
  · intro j hj line hl
    have hlt : j < sc.pending.length := by
      by_contra hge
      rw [List.getElem?_eq_none (by omega)] at hl
      cases hl
    rw [hcb]
    exact s3 j (by omega) line hl
  · intro j hj hl
    have hge : sc.pending.length ≤ j := by
      by_contra hlt
      rw [List.getElem?_eq_getElem (by omega)] at hl
      cases hl
    rw [hcb, s4 j (Or.inr (by omega))]
    exact hempty j hj

theorem drop_eq_drop {α : Type} (xs : List α) (a b : Nat)
    (h : a = b ∨ (xs.length ≤ a ∧ xs.length ≤ b)) : xs.drop a = xs.drop b := by
  rcases h with h | ⟨h1, h2⟩
  · rw [h]
  · rw [List.drop_eq_nil_of_le h1, List.drop_eq_nil_of_le h2]

theorem readDataSvm_call_at {F : Type} (fm : FloatModel F) (cfg : Config) (f : File)
    (test : Option File) (nb e : Int) (i : Nat) (c : Call F)
    (h : (readDataSvm fm cfg (some f) test nb e).calls[i]? = some c) :
    ∃ sc0 sc1, sc0.pending = (f.lines.drop 1).drop (i * cfg.BatchSize.toNat) ∧
      trainBatch fm cfg f test nb e i sc0 = .ok (c, sc1) := by
  unfold readDataSvm at h
  simp only [] at h
  split at h
  · simp at h
  · rename_i sc hsc
    have hpend : sc.pending = f.lines.drop 1 := by
      unfold skipHeader at hsc
      split at hsc
      · rename_i hl
        split at hsc
        · cases hsc
        · have := Except.ok.inj hsc
          subst this
          simp [hl]
      · rename_i hl
        have := Except.ok.inj hsc
        subst this
        simp [hl]
    obtain ⟨s0, s1, hp, ht⟩ := trainLoop_inv fm cfg f test nb e
      (fun k s => 0 ≤ k ∧ s.pending = (f.lines.drop 1).drop (k.toNat * cfg.BatchSize.toNat))
      (by
        intro k s s1 c0 hP hb
        obtain ⟨hk, hs⟩ := hP
        obtain ⟨_, hd, _⟩ := trainBatch_batch fm cfg f test nb e k s s1 c0 hb
        refine ⟨by omega, ?_⟩
        rw [hd, hs, List.drop_drop]
        have hk1 : (k + 1).toNat = k.toNat + 1 := by omega
        rw [hk1, Nat.add_mul, Nat.one_mul]
        apply drop_eq_drop
        simp only [List.length_drop]
        omega)
      nb.toNat 0 sc ⟨le_refl _, by simpa using hpend⟩ i c h
    refine ⟨s0, s1, ?_, by simpa using ht⟩
    have := hp.2
    simpa using this

theorem readDataSvm_batch {F : Type} (fm : FloatModel F) (cfg : Config) (f : File)
    (test : Option File) (nb e : Int) (i : Nat) (c : Call F)
    (h : (readDataSvm fm cfg (some f) test nb e).calls[i]? = some c) :
    0 ≤ cfg.BatchSize ∧ c.batch.Sized cfg.BatchSize.toNat ∧
    (∀ j, j < cfg.BatchSize.toNat → ∀ line,
      (f.lines.drop 1)[i * cfg.BatchSize.toNat + j]? = some line →
      ∃ r, parseRecord fm line = .ok r ∧ c.batch.row? j = some r) ∧
    (∀ j, j < cfg.BatchSize.toNat →
      (f.lines.drop 1)[i * cfg.BatchSize.toNat + j]? = none →
      c.batch.row? j = some Row.empty) := by
  obtain ⟨s0, s1, hp, ht⟩ := readDataSvm_call_at fm cfg f test nb e i c h
  obtain ⟨h0, _, hsz, hrows, hempty⟩ := trainBatch_batch fm cfg f test nb e i s0 s1 c ht
  have hget : ∀ j, s0.pending[j]? = (f.lines.drop 1)[i * cfg.BatchSize.toNat + j]? := by
    intro j
    rw [hp, List.getElem?_drop]
  refine ⟨h0, hsz, ?_, ?_⟩
  · intro j hj line hl
    exact hrows j hj line (by rw [hget]; exact hl)
  · intro j hj hl
    exact hempty j hj (by rw [hget]; exact hl)

theorem parseRecord_lengths {F : Type} (fm : FloatModel F) (line : GoString) (r : Row F)
    (h : parseRecord fm line = .ok r) :
    r.record.length = r.value.length ∧ r.size = (r.record.length : Int) := by
  unfold parseRecord at h
  cases hp : parseLine line with
  | error e => rw [hp] at h; cases h
  | ok t =>
    obtain ⟨label, list, value⟩ := t
    have hlen := parseLine_lengths hp
    rw [hp] at h
    simp only [] at h
    cases ha : convertAll Atoi list with
    | none => rw [ha] at h; cases h
    | some idx =>
      cases hb : convertAll fm.ParseFloat value with
      | none => rw [ha, hb] at h; cases h
      | some vals =>
        cases hc : convertAll Atoi label with
        | none => rw [ha, hb, hc] at h; cases h
        | some labs =>
          rw [ha, hb, hc] at h
          have h := Except.ok.inj h
          subst h
          have l1 := convertAll_length Atoi list idx ha
          have l2 := convertAll_length fm.ParseFloat value vals hb
          simp only []
          exact ⟨by omega, by rw [l1]⟩

theorem parseLine_label_length {line : GoString} {label list value : List GoString}
    (h : parseLine line = .ok (label, list, value)) : 1 ≤ label.length := by
  rw [parseLine_eq] at h
  split at h
  · have h1 := Except.ok.inj h
    simp only [Prod.mk.injEq] at h1
    rw [← h1.1, Split_eq]
    simp
  · cases h

theorem parseRecord_labelSize {F : Type} (fm : FloatModel F) (line : GoString) (r : Row F)
    (h : parseRecord fm line = .ok r) : 1 ≤ r.labelSize := by
  unfold parseRecord at h
  cases hp : parseLine line with
  | error e => rw [hp] at h; cases h
  | ok t =>
    obtain ⟨label, list, value⟩ := t
    have hlab := parseLine_label_length hp
    rw [hp] at h
    simp only [] at h
    cases ha : convertAll Atoi list with
    | none => rw [ha] at h; cases h
    | some idx =>
      cases hb : convertAll fm.ParseFloat value with
      | none => rw [ha, hb] at h; cases h
      | some vals =>
        cases hc : convertAll Atoi label with
        | none => rw [ha, hb, hc] at h; cases h
        | some labs =>
          rw [ha, hb, hc] at h
          have h := Except.ok.inj h
          subst h
          simp only []
          omega

theorem parseRecord_rejected {F : Type} (fm : FloatModel F) (line : GoString)
    (h : Rejected fm line) : ∀ r, parseRecord fm line ≠ .ok r := by
  intro r hr
  unfold parseRecord at hr
  rw [parseLine_eq] at hr
  by_cases hall : ∀ tok ∈ (Split line ' ').tail, ':' ∈ tok
  · rw [if_pos hall] at hr
    simp only [] at hr
    rcases h with ⟨tok, hmem, hbad⟩ | ⟨l, hmem, hbad⟩
    · rcases hbad with hbad | hbad | hbad
      · exact hbad (hall tok hmem)
      · rw [convertAll_none_of_mem Atoi _ (indexText tok)
          (List.mem_map.2 ⟨tok, hmem, rfl⟩) hbad] at hr
        cases hr
      · rw [convertAll_none_of_mem fm.ParseFloat _ (valueText tok)
          (List.mem_map.2 ⟨tok, hmem, rfl⟩) hbad] at hr
        split at hr
        · rename_i h2 _
          cases h2
        · cases hr
    · rw [convertAll_none_of_mem Atoi _ l hmem hbad] at hr
      split at hr
      · rename_i h3
        cases h3
      · cases hr
  · rw [if_neg hall] at hr
    cases hr

/-! ## Claims on records and batches -/

/-- C5: when every space-separated token after the first contains a `':'`, `parseLine`
returns the comma-split of the first token as `label`, and `list` and `value` of the same
length (the number of tokens minus one), `list[i]` being the text of token `i+1` before its
first `':'` and `value[i]` the text between its first `':'` and the next `':'` or the end.
Consequently every example of every batch handed to `ProcessInput` has an index list and a
value list of the same length, which is its recorded size. -/
theorem parseLine_lists (line : GoString)
    (h : ∀ tok ∈ (Split line ' ').tail, ':' ∈ tok) :
    parseLine line = .ok (Split ((Split line ' ').headD []) ',',
      (Split line ' ').tail.map indexText, (Split line ' ').tail.map valueText) ∧
    ((Split line ' ').tail.map indexText).length = (Split line ' ').length - 1 ∧
    ((Split line ' ').tail.map valueText).length = (Split line ' ').length - 1 ∧
    (∀ (F : Type) (fm : FloatModel F) (cfg : Config) (f : File) (test : Option File)
      (numBatches epoch : Int) (i : Nat) (c : Call F),
      (readDataSvm fm cfg (some f) test numBatches epoch).calls[i]? = some c →
      ∀ j, j < cfg.BatchSize.toNat →
        ∃ r, c.batch.row? j = some r ∧ r.record.length = r.value.length ∧
          r.size = (r.record.length : Int)) := by
  refine ⟨by rw [parseLine_eq, if_pos h], by simp, by simp, ?_⟩
  intro F fm cfg f test nb e i c hc j hj
  obtain ⟨_, _, hrows, hempty⟩ := readDataSvm_batch fm cfg f test nb e i c hc
  cases hl : (f.lines.drop 1)[i * cfg.BatchSize.toNat + j]? with
  | none => exact ⟨Row.empty, hempty j hj hl, rfl, rfl⟩
  | some l =>
    obtain ⟨r, hp, hr⟩ := hrows j hj l hl
    exact ⟨r, hr, parseRecord_lengths fm l r hp⟩

/-- C5, instance: a record with two labels and two feature tokens, one with a second `':'`. -/
theorem parseLine_lists_witness :
    (∀ tok ∈ (Split "0,3 1:2.5 7:1:9".toList ' ').tail, ':' ∈ tok) ∧
    parseLine "0,3 1:2.5 7:1:9".toList
      = .ok (["0".toList, "3".toList], ["1".toList, "7".toList],
          ["2.5".toList, "1".toList]) ∧
    parseLine "0,3 1:2.5 7:1:9".toList
      = .ok (Split ((Split "0,3 1:2.5 7:1:9".toList ' ').headD []) ',',
          (Split "0,3 1:2.5 7:1:9".toList ' ').tail.map indexText,
          (Split "0,3 1:2.5 7:1:9".toList ' ').tail.map valueText) :=
  ⟨by decide, rfl, (parseLine_lists "0,3 1:2.5 7:1:9".toList (by decide)).1⟩

/-- C7, refuted as stated: with batch size 2 and three records, one line is left for the
second batch, yet the five slices passed to `ProcessInput` have two entries each, the second
one empty. -/
theorem short_batch_counterexample :
    ∃ c : Call Dec,
      (readDataSvm decimalModel cfgPlain (some fileThree) (some fileThree) 2 0).calls[1]?
        = some c ∧
      ((fileThree.lines.drop 1).drop (1 * 2)).length = 1 ∧
      c.batch.records = [[5], []] ∧ c.batch.values = [[⟨2, 0⟩], []] ∧
      c.batch.sizes = [1, 0] ∧ c.batch.labels = [[0, 1], []] ∧ c.batch.labelSize = [2, 0] ∧
      c.batch.records.length ≠ 1 :=
  ⟨_, rfl, rfl, rfl, rfl, rfl, rfl, rfl, by decide⟩

/-- C7, amended: the five slices that `readDataSvm` passes to `ProcessInput` always have
exactly `BatchSize` entries.  For batch `i`, entry `j` holds the converted record of line
`i*BatchSize + j` (after the header) when the file has such a line, with at least one
label, and is the empty entry left by `make` (nil slices, sizes 0) when the file ran out of
records. -/
theorem readDataSvm_short_batch_padded {F : Type} (fm : FloatModel F) (cfg : Config)
    (f : File) (test : Option File) (numBatches epoch : Int) (i : Nat) (c : Call F)
    (hc : (readDataSvm fm cfg (some f) test numBatches epoch).calls[i]? = some c) :
    (c.batch.records.length = cfg.BatchSize.toNat ∧
      c.batch.values.length = cfg.BatchSize.toNat ∧
      c.batch.sizes.length = cfg.BatchSize.toNat ∧
      c.batch.labels.length = cfg.BatchSize.toNat ∧
      c.batch.labelSize.length = cfg.BatchSize.toNat) ∧
    (∀ j, j < cfg.BatchSize.toNat → ∀ line,
      (f.lines.drop 1)[i * cfg.BatchSize.toNat + j]? = some line →
      ∃ r, parseRecord fm line = .ok r ∧ c.batch.row? j = some r ∧ 1 ≤ r.labelSize) ∧
    (∀ j, j < cfg.BatchSize.toNat →
      (f.lines.drop 1)[i * cfg.BatchSize.toNat + j]? = none →
      c.batch.row? j = some Row.empty) := by
  obtain ⟨_, hsz, hrows, hempty⟩ := readDataSvm_batch fm cfg f test numBatches epoch i c hc
  refine ⟨hsz, fun j hj line hl => ?_, hempty⟩
  obtain ⟨r, hp, hr⟩ := hrows j hj line hl
  exact ⟨r, hp, hr, parseRecord_labelSize fm line r hp⟩

/-- C7, instance: batch size 2, three records, second batch. -/
theorem readDataSvm_short_batch_padded_witness :
    ∃ c : Call Dec,
      (readDataSvm decimalModel cfgPlain (some fileThree) (some fileThree) 2 0).calls[1]?
        = some c ∧
      c.batch.row? 0 = some ⟨[5], [⟨2, 0⟩], 1, [0, 1], 2⟩ ∧
      c.batch.row? 1 = some Row.empty ∧
      c.batch.records.length = cfgPlain.BatchSize.toNat :=
  ⟨_, rfl, rfl, rfl,
    (readDataSvm_short_batch_padded decimalModel cfgPlain fileThree (some fileThree) 2 0 1 _
      rfl).1.1⟩

/-- C8, refuted as stated: the record `0 1:2:3`, whose feature token has two `':'`, does
not abort the run; `ProcessInput` is called with index 1 and value 2, the text after the
second `':'` being dropped. -/
theorem malformed_record_counterexample :
    (fileExtraColon.lines.drop 1)[0]? = some "0 1:2:3".toList ∧
    Split "1:2:3".toList ':' = ["1".toList, "2".toList, "3".toList] ∧
    (readDataSvm decimalModel cfgOne (some fileExtraColon) (some fileThree) 1 0).abort
      = none ∧
    (readDataSvm decimalModel cfgOne (some fileExtraColon) (some fileThree) 1 0).calls
      = [⟨⟨[[1]], [[⟨2, 0⟩]], [1], [[0]], [1]⟩, 0, false, false⟩] :=
  ⟨rfl, rfl, rfl, rfl⟩

/-- C8, amended: when record `j` of the training file (after the header) has a feature
token without `':'`, or with an index text that `Atoi` rejects, or with a value text
(between the first `':'` and the next `':'` or the end) that `ParseFloat` rejects, or has a
label that `Atoi` rejects, and its batch `j / BatchSize` is one of the `numBatches` batches,
then `readDataSvm` aborts and `ProcessInput` is not called for that batch. -/
theorem readDataSvm_rejected_record_aborts {F : Type} (fm : FloatModel F) (cfg : Config)
    (f : File) (test : Option File) (numBatches epoch : Int) (j : Nat) (line : GoString)
    (hB : 0 < cfg.BatchSize)
    (hline : (f.lines.drop 1)[j]? = some line) (hrej : Rejected fm line)
    (hnb : j / cfg.BatchSize.toNat < numBatches.toNat) :
    (readDataSvm fm cfg (some f) test numBatches epoch).calls.length
      ≤ j / cfg.BatchSize.toNat ∧
    (readDataSvm fm cfg (some f) test numBatches epoch).abort ≠ none := by
  have hn : 0 < cfg.BatchSize.toNat := by omega
  have hlen : (readDataSvm fm cfg (some f) test numBatches epoch).calls.length
      ≤ j / cfg.BatchSize.toNat := by
    by_contra hgt
    have hlt : j / cfg.BatchSize.toNat
        < (readDataSvm fm cfg (some f) test numBatches epoch).calls.length := by omega
    obtain ⟨_, _, hrows, _⟩ := readDataSvm_batch fm cfg f test numBatches epoch
      (j / cfg.BatchSize.toNat) _ (List.getElem?_eq_getElem hlt)
    have hidx : j / cfg.BatchSize.toNat * cfg.BatchSize.toNat + j % cfg.BatchSize.toNat = j := by
      rw [Nat.mul_comm]; exact Nat.div_add_mod j _
    obtain ⟨r, hp, _⟩ := hrows (j % cfg.BatchSize.toNat) (Nat.mod_lt j hn) line
      (by rw [hidx]; exact hline)
    exact parseRecord_rejected fm line hrej r hp
  refine ⟨hlen, fun hab => ?_⟩
  have := (readDataSvm_length fm cfg (some f) test numBatches epoch).2 hab
  omega

/-- C8, instance: batch size 2, the second record has the value text `abc`; the run aborts
before the first `ProcessInput` call. -/
theorem readDataSvm_rejected_record_aborts_witness :
    0 < cfgPlain.BatchSize ∧
    (fileBadValue.lines.drop 1)[1]? = some "1 3:abc".toList ∧
    Rejected decimalModel "1 3:abc".toList ∧
    1 / cfgPlain.BatchSize.toNat < (2 : Int).toNat ∧
    (readDataSvm decimalModel cfgPlain (some fileBadValue) (some fileThree) 2 0).calls.length
      ≤ 1 / cfgPlain.BatchSize.toNat ∧
    (readDataSvm decimalModel cfgPlain (some fileBadValue) (some fileThree) 2 0).abort
      ≠ none :=
  ⟨by decide, rfl, Or.inl ⟨"3:abc".toList, by decide, Or.inr (Or.inr (by decide))⟩,
    by decide,
    readDataSvm_rejected_record_aborts decimalModel cfgPlain fileBadValue (some fileThree)
      2 0 1 "1 3:abc".toList (by decide) rfl
      (Or.inl ⟨"3:abc".toList, by decide, Or.inr (Or.inr (by decide))⟩) (by decide)⟩

end GoSlide
